import Mathlib

/-!
# Verification of the Search-Engine repository (ECRomaneli/Search-Engine)

Shallow embedding of the final (most complete) snapshot of the engine found in
the repository source (the `SearchEngine` class with `SearchOptions`, its
tokenizer, group parser, value normalizer, set evaluator and field matcher),
together with proofs settling the frozen claims about the specification.

Modelling decisions (stated once, used throughout):
* JavaScript objects/arrays/primitives are modelled by the inductive `JValue`;
  a record list is a `List JValue`.  JS `Set` identity semantics on object
  references are modelled by structural equality on `JValue` together with
  insertion-ordered duplicate-free lists (`setAdd`, `jsNewSet`); a JS array
  holding the same reference twice is modelled by the same value occurring
  twice in the list.
* JS numbers (IEEE-754 doubles) are modelled as exact rationals `Rat`; every
  numeric literal appearing in the claims is represented exactly.
* `null`/`undefined` arguments and absent fields are modelled with `Option`.
* The in-place mutation of the caller's options object performed by
  `SearchEngine.search` is modelled by returning the updated options record
  alongside the result.
* The JS `TypeError` thrown by `group.lastCondition()!.operator = ...` when a
  boolean keyword arrives before any condition is modelled by an `Option`
  result (`none` = thrown).
-/

mutual

/-- A JavaScript value as far as the engine observes it: strings, numbers
(modelled as exact rationals), booleans, `null`, plain objects (ordered field
list) and arrays. -/
inductive JValue where
  | vStr (s : String)
  | vNum (n : Rat)
  | vBool (b : Bool)
  | vNull
  | vObj (fields : JFields)
  | vArr (items : JItems)
deriving DecidableEq

/-- The ordered own-field list of a JS object. -/
inductive JFields where
  | nil
  | cons (key : String) (val : JValue) (rest : JFields)
deriving DecidableEq

/-- The element list of a JS array. -/
inductive JItems where
  | nil
  | cons (val : JValue) (rest : JItems)
deriving DecidableEq

end

/-- Build an object value from a plain Lean list of fields. -/
def JFields.ofList : List (String × JValue) → JFields
  | [] => .nil
  | (k, v) :: rest => .cons k v (JFields.ofList rest)

/-- Convenience constructor for object records. -/
def jobj (fields : List (String × JValue)) : JValue := .vObj (JFields.ofList fields)

/-- Build an array value from a plain Lean list. -/
def JItems.ofList : List JValue → JItems
  | [] => .nil
  | v :: rest => .cons v (JItems.ofList rest)

/-- Convenience constructor for array values. -/
def jarr (items : List JValue) : JValue := .vArr (JItems.ofList items)

/-- The boolean operators of the query language (`enum Operator`). -/
inductive Operator where
  | and
  | or
deriving DecidableEq

/-- `Operator.from`: `'or'` maps to `OR`, anything else defaults to `AND`. -/
def Operator.fromString (s : String) : Operator :=
  if s = "or" then .or else .and

/-- The typed value carried by a condition after normalization: a plain
lowercased string, a compiled regular expression (kept as its pattern source),
or a numeric range with optional bounds. -/
inductive QVal where
  | vstr (s : String)
  | vregex (pattern : String)
  | vrange (min max : Option Rat)
deriving DecidableEq

/-- The fields of a `Query` (leaf condition) consulted by the field matcher:
`key`, `type` and `value`.  (`negated` and `operator` live on the AST node;
`findQuery` never reads them.) -/
structure CondData where
  key : Option String
  qtype : Option Char
  value : Option QVal
deriving DecidableEq

mutual

/-- The query AST built by the parser: a leaf `Query` or a `GroupQuery`.
`op` is the boolean operator joining a node to its *next* sibling
(`operator` in the source, stored on the left operand). -/
inductive QueryNode where
  | leaf (negated : Bool) (data : CondData) (op : Option Operator)
  | group (negated : Bool) (conditions : QueryList) (op : Option Operator)
deriving DecidableEq

/-- The ordered `conditions` array of a `GroupQuery`. -/
inductive QueryList where
  | nil
  | cons (c : QueryNode) (rest : QueryList)
deriving DecidableEq

end

/-- `operator` field of either node kind. -/
def QueryNode.opOf : QueryNode → Option Operator
  | .leaf _ _ op => op
  | .group _ _ op => op

/-- Overwrite the `operator` field of a node (used for
`group.lastCondition()!.operator = ...`). -/
def QueryNode.setOp (o : Operator) : QueryNode → QueryNode
  | .leaf n d _ => .leaf n d (some o)
  | .group n c _ => .group n c (some o)

/-- `conditions.push(c)`: append at the end. -/
def QueryList.push : QueryList → QueryNode → QueryList
  | .nil, c => .cons c .nil
  | .cons d rest, c => .cons d (QueryList.push rest c)

/-- `group.lastCondition()!.operator = o`: set the operator of the last
condition; `none` models the JS `TypeError` when the group is still empty. -/
def QueryList.setLastOp (o : Operator) : QueryList → Option QueryList
  | .nil => none
  | .cons c .nil => some (.cons (c.setOp o) .nil)
  | .cons c rest => (QueryList.setLastOp o rest).map (.cons c)

/-- The `SearchOptions` configuration object.  Every field is optional exactly
as in the source (`undefined` = `none`); JS truthiness of an absent boolean is
`false`. -/
structure SearchOptions where
  excludeKeys : Option (List String) := none
  allowNumericString : Option Bool := none
  allowKeyValueMatching : Option Bool := none
  matchChildKeysAsValues : Option Bool := none
deriving DecidableEq

/-- JS truthiness of an optional boolean (`undefined` is falsy). -/
def jsTruthy (o : Option Bool) : Bool := o.getD false

/-- JS truthiness of an optional string (`undefined` and `''` are falsy). -/
def jsStrTruthy (o : Option String) : Bool :=
  match o with
  | none => false
  | some s => s ≠ ""

/-- `Set.add` on an insertion-ordered duplicate-free list: appends the element
unless already present (JS `Set` keeps first insertion position). -/
def setAdd {α : Type} [DecidableEq α] (l : List α) (a : α) : List α :=
  if a ∈ l then l else l ++ [a]

/-- `new Set(list)`: duplicates collapse onto their first occurrence,
insertion order otherwise preserved. -/
def jsNewSet {α : Type} [DecidableEq α] (l : List α) : List α :=
  l.foldl setAdd []

/-- Building a fresh JS `Set` by conditionally `add`-ing each element of an
iterated collection (the filtering loops of `evaluateCondition` and of the
group-negation complement). -/
def jsSetFilter {α : Type} [DecidableEq α] (l : List α) (p : α → Bool) : List α :=
  l.foldl (fun acc a => if p a then setAdd acc a else acc) []

/-- ASCII `toLowerCase` applied character-wise (the engine only lowercases
ASCII query/key/value text in the inputs considered here). -/
def jsToLower (s : String) : String := String.mk (s.data.map Char.toLower)

/-- `String.prototype.trim`: strip leading and trailing whitespace. -/
def jsTrim (s : String) : String :=
  String.mk (((s.data.dropWhile Char.isWhitespace).reverse.dropWhile Char.isWhitespace).reverse)

/-- `String.prototype.indexOf(sub) !== -1`: substring containment. -/
def jsIncludes (s sub : String) : Bool := decide (sub.data <:+: s.data)

/-- `String.prototype.endsWith`. -/
def jsEndsWith (s suffix : String) : Bool := decide (suffix.data <:+ s.data)

/-- JS string coercion of the `indexOf`/`match` argument when the condition
key is absent (`undefined` coerces to the string `"undefined"`; the parser
never produces such a condition, the branch is kept for faithfulness). -/
def jsKeyString (o : Option String) : String := o.getD "undefined"

/-- Decimal digits of the fractional part `r/d` (long division), `fuel` many
at most.  JS prints the shortest round-tripping decimal of a double; for the
exact terminating decimals appearing in this development the two agree. -/
def fracDigits (r d : Nat) : Nat → String
  | 0 => ""
  | fuel + 1 =>
    if r = 0 then ""
    else String.singleton (Char.ofNat (48 + (r * 10) / d)) ++ fracDigits ((r * 10) % d) d fuel

/-- JS number-to-string coercion (template literal `${value}`) for the exact
rationals modelling doubles. -/
def jsNumToString (q : Rat) : String :=
  if q.den = 1 then toString q.num
  else
    (if q.num < 0 then "-" else "") ++ toString (q.num.natAbs / q.den) ++ "." ++
      fracDigits (q.num.natAbs % q.den) q.den 30

/-- JS boolean-to-string coercion. -/
def jsBoolToString (b : Bool) : String := if b then "true" else "false"

/-- Digits of a decimal run, returning the parsed `Nat`, its length and the
rest of the input. -/
def takeDigits : List Char → Nat → Nat → (Nat × Nat × List Char)
  | c :: rest, acc, len =>
    if c.isDigit then takeDigits rest (acc * 10 + (c.toNat - 48)) (len + 1)
    else (acc, len, c :: rest)
  | [], acc, len => (acc, len, [])

/-- Parse `-?\d+(\.\d+)?` (the shape of the range regexp's capture groups and
of `parseFloat` on such captures) into an exact rational; `none` on any other
input (JS `NaN`). -/
def parseFloatNum (s : String) : Option Rat :=
  let cs := s.data
  let (neg, cs) := match cs with
    | '-' :: rest => (true, rest)
    | rest => (false, rest)
  let (ip, ipLen, cs) := takeDigits cs 0 0
  if ipLen = 0 then none
  else
    let mag : Option Rat :=
      match cs with
      | [] => some (ip : Rat)
      | '.' :: rest =>
        let (fp, fpLen, rest2) := takeDigits rest 0 0
        if fpLen = 0 ∨ rest2 ≠ [] then none
        else some ((ip : Rat) + (fp : Rat) / ((10 : Rat) ^ fpLen))
      | _ => none
    mag.map (fun m => if neg then -m else m)

/-- JS `Number(string)` coercion (unary `+` in `match`'s numeric-string test):
whitespace-trimmed, empty string is `0`, optional sign, decimal digits with an
optional fractional part; anything else is `NaN` (`none`).  (Hexadecimal and
exponent forms are outside the inputs of this development.) -/
def jsStringToNumber (s : String) : Option Rat :=
  let t := jsTrim s
  if t = "" then some 0
  else
    let (neg, cs) := match t.data with
      | '-' :: rest => (true, rest)
      | '+' :: rest => (false, rest)
      | rest => (false, rest)
    let (ip, ipLen, cs2) := takeDigits cs 0 0
    let mag : Option Rat :=
      match cs2 with
      | [] => if ipLen = 0 then none else some (ip : Rat)
      | '.' :: rest =>
        let (fp, fpLen, rest2) := takeDigits rest 0 0
        if rest2 ≠ [] ∨ (ipLen = 0 ∧ fpLen = 0) then none
        else some ((ip : Rat) + (fp : Rat) / ((10 : Rat) ^ fpLen))
      | _ => none
    mag.map (fun m => if neg then -m else m)

/-- `removeEscapeChar`: strip each backslash escape once
(`str.replace(/\\(.)/g, '$1')`); a trailing lone backslash is kept. -/
def removeEscapeChar : List Char → List Char
  | '\\' :: c :: rest => c :: removeEscapeChar rest
  | c :: rest => c :: removeEscapeChar rest
  | [] => []

/-- `removeEscapeChar` on an optional string: falsy input (absent or empty)
is returned unchanged. -/
def jsRemoveEscape (o : Option String) : Option String :=
  match o with
  | none => none
  | some s => if s = "" then some s else some (String.mk (removeEscapeChar s.data))

/-- `matchRange`: inclusive comparison against the optional bounds; with both
bounds absent the JS comparison `numValue <= undefined` is `false`. -/
def matchRange (min max : Option Rat) (numValue : Rat) : Bool :=
  match min, max with
  | some a, some b => decide (a ≤ numValue) && decide (numValue ≤ b)
  | some a, none => decide (a ≤ numValue)
  | none, some b => decide (numValue ≤ b)
  | none, none => false

/-- `isExcluded`: some entry of `excludeKeys` is a suffix of the accumulated
dotted key path. -/
def isExcluded (nestedKeys : String) (excludedKeys : Option (List String)) : Bool :=
  match excludedKeys with
  | none => false
  | some keys => keys.any (fun key => jsEndsWith nestedKeys key)

/-- The range bounds carried by `expectedValue` in `matchRange` (reading
`.min`/`.max` off a non-range value yields `undefined` in JS). -/
def expectedRange (expected : Option QVal) : Option Rat × Option Rat :=
  match expected with
  | some (.vrange mn mx) => (mn, mx)
  | _ => (none, none)

/-- The pattern of a compiled regex expected value (unreachable for other
shapes under the normalizer's invariants). -/
def expectedPattern (expected : Option QVal) : String :=
  match expected with
  | some (.vregex p) => p
  | _ => ""

/-- JS string coercion of `expectedValue` as used by `indexOf` in the plain
substring branches; only the `vstr` (and, through the key-as-value call,
absent) shapes are reachable there. -/
def expectedString (expected : Option QVal) : String :=
  match expected with
  | some (.vstr s) => s
  | some (.vregex p) => "/" ++ p ++ "/i"
  | some (.vrange _ _) => "[object Object]"
  | none => "undefined"

/-- Modelled from the spec: the JS regular-expression matching engine
(`RegExp.prototype.test`) is an external platform facility; no claim in this
development depends on the outcome of a regex match, so the test is modelled
as constantly `false`. -/
def regexTest (_pattern : String) (_s : String) : Bool := false

/-- The key names `Object.keys` yields for a value: field names of an object,
decimal index strings of an array, nothing otherwise (used by the
`matchChildKeysAsValues` loop in `match`). -/
def childKeyNames : JValue → List String
  | .vObj fields => fieldKeyNames fields
  | .vArr items => itemKeyNames items 0
  | _ => []
where
  fieldKeyNames : JFields → List String
    | .nil => []
    | .cons k _ rest => k :: fieldKeyNames rest
  itemKeyNames : JItems → Nat → List String
    | .nil, _ => []
    | .cons _ rest, i => toString i :: itemKeyNames rest (i + 1)

/-- The non-object dispatch of the source's `match` function: `null` never
matches; a `~`-typed predicate only sees numbers (or numeric strings when
`allowNumericString`); a `*`-typed predicate applies the compiled regex; plain
predicates are substring containment on the (lowercased, for strings)
stringified value. -/
def matchPrim (expected : Option QVal) (value : JValue) (qtype : Option Char)
    (options : SearchOptions) : Bool :=
  match value with
  | .vNull => false
  | .vStr s =>
    if qtype = some '~' then
      match (if jsTruthy options.allowNumericString then jsStringToNumber s else none) with
      | some n => matchRange (expectedRange expected).1 (expectedRange expected).2 n
      | none => false
    else if qtype = some '*' then regexTest (expectedPattern expected) s
    else jsIncludes (jsToLower s) (expectedString expected)
  | .vNum n =>
    if qtype = some '~' then matchRange (expectedRange expected).1 (expectedRange expected).2 n
    else if qtype = some '*' then regexTest (expectedPattern expected) (jsNumToString n)
    else jsIncludes (jsNumToString n) (expectedString expected)
  | .vBool b =>
    if qtype = some '~' then false
    else if qtype = some '*' then regexTest (expectedPattern expected) (jsBoolToString b)
    else jsIncludes (jsBoolToString b) (expectedString expected)
  | .vObj _ => false
  | .vArr _ => false

/-- The source's `match(expectedValue, value, type, options)`.  For an object
value the source recurses over `Object.keys(value)` testing each key name,
which always lands in the non-object (string) dispatch `matchPrim`; other
values go to `matchPrim` directly. -/
def matchValue (expected : Option QVal) (value : JValue) (qtype : Option Char)
    (options : SearchOptions) : Bool :=
  match value with
  | .vObj _ =>
    jsTruthy options.matchChildKeysAsValues &&
      (childKeyNames value).any (fun k => matchPrim expected (.vStr k) qtype options)
  | .vArr _ =>
    jsTruthy options.matchChildKeysAsValues &&
      (childKeyNames value).any (fun k => matchPrim expected (.vStr k) qtype options)
  | _ => matchPrim expected value qtype options

/-- One iteration of `findQuery`'s key loop: build the dotted lowercase path,
honor `excludeKeys`, match the condition key against the path (substring), and
either succeed on key existence, test the value, or recurse.  The two
recursive calls of the source (`findQuery(obj[key], query, newNestedKeys,
options)` and `findQuery(obj[key], query, newNestedKeys, options, true)`) are
received as the arguments `recNone` and `recTrue`, so that the recursion in
`findQueryFields`/`findQueryItems` is structural; as the calls are pure and
boolean, passing their results eagerly is observationally identical to the
source's short-circuiting. -/
def findQueryKey (k : String) (child : JValue) (q : CondData) (nestedKeys : String)
    (options : SearchOptions) (keyFound : Option Bool) (recNone recTrue : Bool) : Bool :=
  let newNestedKeys := nestedKeys ++ jsToLower k
  if isExcluded newNestedKeys options.excludeKeys then false
  else if keyFound.isNone then
    if !jsIncludes newNestedKeys (jsKeyString q.key) then
      recNone ||
        (jsTruthy options.allowKeyValueMatching && q.value.isNone &&
          matchValue (q.key.map QVal.vstr) child q.qtype options)
    else if q.value.isNone then true
    else matchValue q.value child q.qtype options || recTrue
  else matchValue q.value child q.qtype options || recTrue

mutual

/-- The source's `findQuery(obj, query, nestedKeys, options, keyFound)`:
recursively walk the object's own keys.  Non-objects (and `null`) fail
immediately; otherwise the key loop is the disjunction over keys (each
iteration either `return true`s or `continue`s). -/
def findQuery (obj : JValue) (q : CondData) (nestedKeys : String)
    (options : SearchOptions) (keyFound : Option Bool) : Bool :=
  match obj with
  | .vObj fields => findQueryFields fields q (nestedKeys ++ ".") options keyFound
  | .vArr items => findQueryItems items 0 q (nestedKeys ++ ".") options keyFound
  | _ => false

/-- Key loop of `findQuery` over an object's fields. -/
def findQueryFields (fields : JFields) (q : CondData) (nestedKeys : String)
    (options : SearchOptions) (keyFound : Option Bool) : Bool :=
  match fields with
  | .nil => false
  | .cons k child rest =>
    findQueryKey k child q nestedKeys options keyFound
      (findQuery child q (nestedKeys ++ jsToLower k) options none)
      (findQuery child q (nestedKeys ++ jsToLower k) options (some true)) ||
      findQueryFields rest q nestedKeys options keyFound

/-- Key loop of `findQuery` over an array's index keys. -/
def findQueryItems (items : JItems) (i : Nat) (q : CondData) (nestedKeys : String)
    (options : SearchOptions) (keyFound : Option Bool) : Bool :=
  match items with
  | .nil => false
  | .cons child rest =>
    findQueryKey (toString i) child q nestedKeys options keyFound
      (findQuery child q (nestedKeys ++ jsToLower (toString i)) options none)
      (findQuery child q (nestedKeys ++ jsToLower (toString i)) options (some true)) ||
      findQueryItems rest (i + 1) q nestedKeys options keyFound

end

mutual

/-- The source's `evaluateCondition`: dispatch a group to `evaluateGroup`,
and filter the incoming set through the field matcher for a leaf, keeping a
record iff `condition.negated !== findQuery(...)`. -/
def evaluateCondition (objList : List JValue) (c : QueryNode)
    (options : SearchOptions) : List JValue :=
  match c with
  | .group neg conds _ => evaluateGroup objList neg conds options
  | .leaf neg d _ =>
    jsSetFilter objList (fun obj => neg != findQuery obj d "" options none)

/-- The source's `evaluateGroup`: empty groups match everything (nothing when
negated); otherwise fold the children left to right and finally complement
within the incoming candidate set when the group is negated. -/
def evaluateGroup (objList : List JValue) (neg : Bool) (conds : QueryList)
    (options : SearchOptions) : List JValue :=
  match conds with
  | .nil => if neg then [] else objList
  | .cons c rest =>
    let result := evaluateChain objList (evaluateCondition objList c options) c.opOf rest options
    if neg then jsSetFilter objList (fun obj => !(decide (obj ∈ result))) else result

/-- The fold over the remaining children of a group: an `OR` on the previous
sibling evaluates the child against the original incoming set and unions it
into the accumulator; otherwise the child narrows the accumulator. -/
def evaluateChain (objList current : List JValue) (prevOp : Option Operator)
    (conds : QueryList) (options : SearchOptions) : List JValue :=
  match conds with
  | .nil => current
  | .cons c rest =>
    let current2 :=
      if prevOp = some .or then
        (evaluateCondition objList c options).foldl setAdd current
      else evaluateCondition current c options
    evaluateChain objList current2 c.opOf rest options

end

/-- Maximal run of `[^-\d]*` (the "junk" class of the range grammar): stop at
the first digit or minus sign. -/
def junkRun : List Char → List Char
  | c :: rest => if c.isDigit || c = '-' then c :: rest else junkRun rest
  | [] => []

/-- Digits `\d+` followed by an optional fraction `(\.\d+)?`, greedy, as in
the number groups of `RANGE_REGEXP`; `none` if no leading digit. -/
def digitsFrac (cs : List Char) : Option (List Char × List Char) :=
  let (_, ipLen, rest) := takeDigits cs 0 0
  if ipLen = 0 then none
  else
    let ip := cs.take ipLen
    match rest with
    | '.' :: rest2 =>
      let (_, fpLen, rest3) := takeDigits rest2 0 0
      if fpLen = 0 then some (ip, rest)
      else some (ip ++ '.' :: rest2.take fpLen, rest3)
    | _ => some (ip, rest)

/-- Greedy match of one number group `(-?\d+(\.\d+)?)` of `RANGE_REGEXP`.
(If this greedy match later fails to extend to a full match, the only
backtracking alternative that can still succeed is omitting the group
entirely: dropping fraction digits or integer digits leaves a digit as the
next character, which neither the junk class nor the literal `-` accepts.) -/
def numGreedy (cs : List Char) : Option (List Char × List Char) :=
  match cs with
  | '-' :: rest => (digitsFrac rest).map (fun dr => ('-' :: dr.1, dr.2))
  | _ => digitsFrac cs

/-- `RANGE_REGEXP = /^[^-\d]*(-?\d+(\.\d+)?)?[^-\d]*-[^-\d]*(-?\d+(\.\d+)?)?[^-\d]*$/`:
full-string match returning the two number captures (`matches[1]`,
`matches[3]`), or `none` when the value does not match the range grammar. -/
def rangeCaptures (s : String) : Option (Option String × Option String) :=
  let afterDash : Option (List Char) → List Char → Option (Option String × Option String) :=
    fun n1 rest3 =>
      let rest4 := junkRun rest3
      let finish : Option (List Char) → List Char → Option (Option String × Option String) :=
        fun n2 rest5 =>
          if junkRun rest5 = [] then
            some (n1.map String.mk, n2.map String.mk)
          else none
      match numGreedy rest4 with
      | some (n2c, r) =>
        match finish (some n2c) r with
        | some res => some res
        | none => finish none rest4
      | none => finish none rest4
  let tryN1 : Option (List Char) → List Char → Option (Option String × Option String) :=
    fun n1 rest1 =>
      match junkRun rest1 with
      | '-' :: rest3 => afterDash n1 rest3
      | _ => none
  let cs := junkRun s.data
  match numGreedy cs with
  | some (n1c, r) =>
    match tryN1 (some n1c) r with
    | some res => some res
    | none => tryN1 none cs
  | none => tryN1 none cs

/-- Modelled from the spec: validity of a pattern for the JS `RegExp`
constructor (`new RegExp(value, 'i')`), which is a platform builtin outside
the repository.  Validity is approximated by checking escapes, character
classes and group parentheses for balance; the claims only depend on the
demotion behavior of `getQuery` given some pattern that fails to compile
(e.g. `"("`), which this check shares with the builtin. -/
def regexSyntaxOk : List Char → Nat → Bool → Bool
  | [], depth, inClass => depth = 0 && !inClass
  | '\\' :: rest, depth, inClass =>
    match rest with
    | [] => false
    | _ :: r => regexSyntaxOk r depth inClass
  | '[' :: rest, depth, _ => regexSyntaxOk rest depth true
  | ']' :: rest, depth, _ => regexSyntaxOk rest depth false
  | '(' :: rest, depth, inClass =>
    if inClass then regexSyntaxOk rest depth inClass
    else regexSyntaxOk rest (depth + 1) inClass
  | ')' :: rest, depth, inClass =>
    if inClass then regexSyntaxOk rest depth inClass
    else depth > 0 && regexSyntaxOk rest (depth - 1) inClass
  | _ :: rest, depth, inClass => regexSyntaxOk rest depth inClass

/-- Modelled from the spec: `new RegExp(pattern, 'i')` — `some` compiled
pattern on success, `none` when construction throws. -/
def compileRegex (pattern : String) : Option String :=
  if regexSyntaxOk pattern.data 0 false then some pattern else none

/-- `getUnquotedValue`: the raw matched text `""` (two quote characters) and
the lone `"` are converted to "no value"; everything else (including absence)
passes through. -/
def getUnquotedValue (value : Option String) : Option String :=
  match value with
  | some s => if s = "\"\"" ∨ s = "\"" then none else some s
  | none => none

/-- The source's `getQuery` (Value Normalizer): build a leaf condition from
`(negated, type, key, value)`.  Escapes are stripped once; a type marker with
a missing/blank value, an uncompilable regex pattern, a value that fails the
range grammar, or a range with both bounds `NaN`-deleted (a parsed `0` is
kept: `!min && min !== 0 && delete`) all demote the condition to
key-existence-only by dropping `type` and `value`. -/
def getQuery (negated : Bool) (qtype : Option Char) (key : Option String)
    (value : Option String) : QueryNode :=
  let key2 := jsRemoveEscape key
  let value2 := jsRemoveEscape value
  if qtype.isNone then
    .leaf negated ⟨key2, none, value2.map QVal.vstr⟩ none
  else if !jsStrTruthy value2 || jsTrim (value2.getD "") = "" then
    .leaf negated ⟨key2, none, none⟩ none
  else if qtype = some '*' then
    match compileRegex (value2.getD "") with
    | some p => .leaf negated ⟨key2, some '*', some (.vregex p)⟩ none
    | none => .leaf negated ⟨key2, none, none⟩ none
  else
    match rangeCaptures (value2.getD "") with
    | none => .leaf negated ⟨key2, none, none⟩ none
    | some captures =>
      let mn := captures.1.bind parseFloatNum
      let mx := captures.2.bind parseFloatNum
      if mn.isNone && mx.isNone then .leaf negated ⟨key2, none, none⟩ none
      else .leaf negated ⟨key2, qtype, some (.vrange mn mx)⟩ none

/-- Skip literal spaces (each ` *` of the tokenizer pattern; greedy, and no
following construct can start with a space, so no backtracking arises). -/
def skipSpaces : List Char → List Char
  | ' ' :: rest => skipSpaces rest
  | cs => cs

/-- Consume a literal string, or fail. -/
def litStr : List Char → List Char → Option (List Char)
  | [], cs => some cs
  | l :: ls, c :: cs => if c = l then litStr ls cs else none
  | _ :: _, [] => none

/-- Key characters: everything but space, parentheses, backslash, the type
markers and the separator (`[^ ()\\*~:]`). -/
def keyChar (c : Char) : Bool :=
  !(c = ' ' || c = '(' || c = ')' || c = '\\' || c = '*' || c = '~' || c = ':')

/-- Unquoted-value characters (`[^ ()\\]`). -/
def valChar (c : Char) : Bool :=
  !(c = ' ' || c = '(' || c = ')' || c = '\\')

/-- Quoted-literal characters (`[^"\\]`). -/
def qChar (c : Char) : Bool := !(c = '"' || c = '\\')

/-- The element decomposition of `(?:\\.|[class])+`: a backslash escapes the
following character (two chars), otherwise a single class character; stop at
the first char fitting neither alternative. -/
def elemsOf (ok : Char → Bool) : List Char → List (List Char)
  | '\\' :: c :: rest => ['\\', c] :: elemsOf ok rest
  | c :: rest => if ok c then [c] :: elemsOf ok rest else []
  | [] => []

/-- All ways `(?:\\.|[class])+` can match a prefix, longest first (the order
in which a backtracking regex engine tries them). -/
def elemAlts (ok : Char → Bool) (cs : List Char) : List (List Char × List Char) :=
  let es := elemsOf ok cs
  (List.range es.length).map (fun i =>
    let consumed := (es.take (es.length - i)).flatten
    (consumed, cs.drop consumed.length))

/-- One raw match of the compound `TOKENIZER` pattern: capture groups in the
source's `TOKEN` order.  `operator = some ""` models the empty capture when
the `$` alternative matches at end of input. -/
structure TokenMatch where
  len : Nat
  groupNegated : Bool
  groupStart : Bool
  negated : Bool
  key : Option String
  ttype : Option String
  value : Option String
  quotedValue : Option String
  operator : Option String
deriving DecidableEq

/-- First alternative of `TOKENIZER`: ` *(not)? *(\()` — optional `not`
then a group opener. -/
def matchAlt1 (cs : List Char) : Option (Nat × Bool) :=
  let r1 := skipSpaces cs
  let withNot : Option (Nat × Bool) :=
    match litStr "not".data r1 with
    | some r2 =>
      match skipSpaces r2 with
      | '(' :: r4 => some (cs.length - r4.length, true)
      | _ => none
    | none => none
  match withNot with
  | some res => some res
  | none =>
    match r1 with
    | '(' :: r4 => some (cs.length - r4.length, false)
    | _ => none

/-- Alternatives for `(not +)?`: `not` followed by at least one space (spaces
greedy), then the fallback of matching nothing. -/
def negAlts (cs : List Char) : List (Bool × List Char) :=
  match litStr "not".data cs with
  | some r =>
    match r with
    | ' ' :: r2 => [(true, skipSpaces r2), (false, cs)]
    | _ => [(false, cs)]
  | none => [(false, cs)]

/-- Alternatives for the optional key group `(?:((?:\\.|[^ ()\\*~:])+) *([*~]?:))?`:
the greedy key text followed by optional spaces and the separator (with an
optional type marker), then the fallback of matching nothing.  A shorter key
prefix can never complete the group: the element after the shortened key
starts with a key character or a backslash, neither of which the `[*~]?:`
tail accepts, so only the greedy alternative is generated. -/
def keyAlts (cs : List Char) : List (Option (String × String) × List Char) :=
  let es := elemsOf keyChar cs
  let present : List (Option (String × String) × List Char) :=
    if es.isEmpty then []
    else
      let keyStr := es.flatten
      match skipSpaces (cs.drop keyStr.length) with
      | '*' :: ':' :: rest => [(some (String.mk keyStr, "*:"), rest)]
      | '~' :: ':' :: rest => [(some (String.mk keyStr, "~:"), rest)]
      | ':' :: rest => [(some (String.mk keyStr, ":"), rest)]
      | _ => []
  present ++ [(none, cs)]

/-- Alternatives for the optional value group
`("((?:\\.|[^"\\])+)"?|(?:\\.|[^ ()\\])+)?` as pairs (VALUE capture,
QUOTED_VALUE capture): the quoted alternative (closing quote optional, inner
text non-empty, longest first), then the unquoted run, then nothing. -/
def valAlts (cs : List Char) : List ((Option String × Option String) × List Char) :=
  let quoted : List ((Option String × Option String) × List Char) :=
    match cs with
    | '"' :: rest =>
      (elemAlts qChar rest).flatMap (fun ir =>
        let inner := ir.1
        match ir.2 with
        | '"' :: r2 =>
          [((some (String.mk ('"' :: inner ++ ['"'])), some (String.mk inner)), r2),
           ((some (String.mk ('"' :: inner)), some (String.mk inner)), ir.2)]
        | _ => [((some (String.mk ('"' :: inner)), some (String.mk inner)), ir.2)])
    | _ => []
  let unquoted := (elemAlts valChar cs).map (fun vr =>
    ((some (String.mk vr.1), (none : Option String)), vr.2))
  quoted ++ unquoted ++ [((none, none), cs)]

/-- The trailing operator group `(and|or|\)|$)`, alternatives in pattern
order; `$` matches the empty string at end of input only. -/
def matchOperator (cs : List Char) : Option (String × List Char) :=
  match litStr "and".data cs with
  | some r => some ("and", r)
  | none =>
    match litStr "or".data cs with
    | some r => some ("or", r)
    | none =>
      match cs with
      | ')' :: r => some (")", r)
      | [] => some ("", [])
      | _ => none

/-- Second alternative of `TOKENIZER`: a condition clause — optional `not `,
optional key and separator, optional value, then the operator group; the
first combination of sub-alternatives whose continuation succeeds wins, as in
a backtracking regex engine. -/
def matchAlt2 (cs : List Char) : Option TokenMatch :=
  let r1 := skipSpaces cs
  (negAlts r1).findSome? (fun nr =>
    (keyAlts nr.2).findSome? (fun kr =>
      let r4 := skipSpaces kr.2
      (valAlts r4).findSome? (fun vr =>
        let r6 := skipSpaces vr.2
        (matchOperator r6).map (fun opr =>
          { len := cs.length - opr.2.length
            groupNegated := false
            groupStart := false
            negated := nr.1
            key := kr.1.map Prod.fst
            ttype := kr.1.map Prod.snd
            value := vr.1.1
            quotedValue := vr.1.2
            operator := some opr.1 }))))

/-- One attempt of the whole `TOKENIZER` pattern at the current position
(first alternative preferred). -/
def matchAt (cs : List Char) : Option TokenMatch :=
  match matchAlt1 cs with
  | some lg =>
    some { len := lg.1, groupNegated := lg.2, groupStart := true, negated := false,
           key := none, ttype := none, value := none, quotedValue := none, operator := none }
  | none => matchAlt2 cs

/-- `regex.exec` with the `g` flag: find the leftmost match at or after the
current position (advancing one character when no match starts here) and
return it with the rest of the input.  At end of input the pattern always
matches the empty string through `$`, which is the loop-exit condition of the
parser. -/
def tokenizerExec (cs : List Char) : TokenMatch × List Char :=
  match matchAt cs with
  | some m => (m, cs.drop m.len)
  | none =>
    match cs with
    | [] =>
      ({ len := 0, groupNegated := false, groupStart := false, negated := false,
         key := none, ttype := none, value := none, quotedValue := none,
         operator := some "" }, [])
    | _ :: rest => tokenizerExec rest

/-- The source's `extractConditionsFromQuery` (Group Parser): loop on
tokenizer matches, recursing into subgroups on a group opener, normalizing
and appending condition clauses, breaking on a group closer, and attaching
`and`/`or` keywords to the most recent sibling.  `none` models the JS
`TypeError` on `group.lastCondition()!` when the keyword precedes any
condition; `fuel` bounds the loop (every matched token is non-empty, so
`2 * length + 2` always suffices for the inputs evaluated here). -/
def extractConditionsFromQuery (fuel : Nat) (cs : List Char) (group : QueryList) :
    Option (QueryList × List Char) :=
  match fuel with
  | 0 => none
  | fuel + 1 =>
    let mr := tokenizerExec cs
    let m := mr.1
    let rest := mr.2
    if m.len = 0 then some (group, rest)
    else if m.groupStart then
      match extractConditionsFromQuery fuel rest .nil with
      | none => none
      | some sub =>
        extractConditionsFromQuery fuel sub.2 (group.push (.group m.groupNegated sub.1 none))
    else
      let value0 := if jsStrTruthy m.quotedValue then m.quotedValue else none
      let kv : Option String × Option String :=
        match m.key with
        | none => (if value0.isSome then some "." else getUnquotedValue m.value, value0)
        | some k => (some k, if value0.isNone then getUnquotedValue m.value else value0)
      let qtype : Option Char :=
        match m.ttype with
        | some t => if t ≠ "" ∧ t ≠ ":" then some (t.data.headD ' ') else none
        | none => none
      let group2 :=
        if jsStrTruthy kv.1 || jsStrTruthy kv.2 then
          group.push (getQuery m.negated qtype kv.1 kv.2)
        else group
      if m.operator = some ")" then some (group2, rest)
      else if jsStrTruthy m.operator then
        match group2.setLastOp (Operator.fromString (m.operator.getD "")) with
        | none => none
        | some group3 => extractConditionsFromQuery fuel rest group3
      else extractConditionsFromQuery fuel rest group2

/-- The public entry point `SearchEngine.search(objList, queryStr, options)`:
null-ish record list yields `[]`; falsy or blank query yields a shallow copy;
otherwise fill the option defaults **into the caller's options object**
(returned as the second component), lowercase and parse the query once, and
evaluate the group tree against the record set.  The first component is
`none` when evaluation throws (see `QueryList.setLastOp`). -/
def SearchEngine.search (objList : Option (List JValue)) (queryStr : Option String)
    (options : SearchOptions) : Option (List JValue) × SearchOptions :=
  if objList.isNone then (some [], options)
  else
    let records := objList.getD []
    if !jsStrTruthy queryStr || jsTrim (queryStr.getD "") = "" then (some records, options)
    else
      let options2 : SearchOptions :=
        { options with
          allowNumericString := some (options.allowNumericString.getD true)
          allowKeyValueMatching := some (options.allowKeyValueMatching.getD true) }
      let q := (jsToLower (queryStr.getD "")).data
      match extractConditionsFromQuery (2 * q.length + 2) q .nil with
      | none => (none, options2)
      | some parsed => (some (evaluateGroup (jsNewSet records) false parsed.1 options2), options2)

mutual

/-- No node of the tree carries an `or` operator (the parsed shape of queries
that join conditions with `and` only). -/
def QueryNode.noOr : QueryNode → Bool
  | .leaf _ _ op => op ≠ some .or
  | .group _ conds op => op ≠ some .or && QueryList.noOr conds

/-- `QueryNode.noOr` over a condition list. -/
def QueryList.noOr : QueryList → Bool
  | .nil => true
  | .cons c rest => QueryNode.noOr c && QueryList.noOr rest

end

theorem mem_setAdd {α : Type} [DecidableEq α] {l : List α} {a b : α} :
    a ∈ setAdd l b ↔ a ∈ l ∨ a = b := by
  unfold setAdd
  split
  · rename_i h
    constructor
    · exact Or.inl
    · rintro (ha | rfl)
      · exact ha
      · exact h
  · simp

theorem nodup_setAdd {α : Type} [DecidableEq α] {l : List α} {b : α} (h : l.Nodup) :
    (setAdd l b).Nodup := by
  unfold setAdd
  split
  · exact h
  · rename_i hb
    simp [List.nodup_append, h, hb]

theorem foldl_setAdd_eq_append {α : Type} [DecidableEq α] (l acc : List α) :
    ∃ sub, List.foldl setAdd acc l = acc ++ sub ∧ sub.Sublist l := by
  induction l generalizing acc with
  | nil => exact ⟨[], by simp, by simp⟩
  | cons a t ih =>
    simp only [List.foldl_cons]
    by_cases h : a ∈ acc
    · obtain ⟨sub, he, hs⟩ := ih acc
      exact ⟨sub, by simp [setAdd, h, he], hs.cons a⟩
    · obtain ⟨sub, he, hs⟩ := ih (acc ++ [a])
      refine ⟨a :: sub, ?_, hs.cons₂ a⟩
      have hadd : setAdd acc a = acc ++ [a] := by simp [setAdd, h]
      rw [hadd, he, List.append_assoc]
      simp

theorem mem_foldl_setAdd {α : Type} [DecidableEq α] (l acc : List α) (a : α) :
    a ∈ List.foldl setAdd acc l ↔ a ∈ acc ∨ a ∈ l := by
  induction l generalizing acc with
  | nil => simp
  | cons b t ih =>
    simp only [List.foldl_cons, ih, mem_setAdd, List.mem_cons]
    tauto

theorem nodup_foldl_setAdd {α : Type} [DecidableEq α] (l : List α) {acc : List α}
    (h : acc.Nodup) : (List.foldl setAdd acc l).Nodup := by
  induction l generalizing acc with
  | nil => simpa
  | cons b t ih => exact ih (nodup_setAdd h)

theorem length_le_foldl_setAdd {α : Type} [DecidableEq α] (l acc : List α) :
    acc.length ≤ (List.foldl setAdd acc l).length := by
  obtain ⟨sub, he, -⟩ := foldl_setAdd_eq_append l acc
  simp [he]

theorem jsNewSet_sublist {α : Type} [DecidableEq α] (l : List α) :
    (jsNewSet l).Sublist l := by
  obtain ⟨sub, he, hs⟩ := foldl_setAdd_eq_append l []
  simpa [jsNewSet, he] using hs

theorem mem_jsNewSet {α : Type} [DecidableEq α] {l : List α} {a : α} :
    a ∈ jsNewSet l ↔ a ∈ l := by
  simp [jsNewSet, mem_foldl_setAdd]

theorem nodup_jsNewSet {α : Type} [DecidableEq α] (l : List α) : (jsNewSet l).Nodup :=
  nodup_foldl_setAdd l List.nodup_nil

theorem foldl_setAdd_eq_self {α : Type} [DecidableEq α] (l acc : List α)
    (h : (acc ++ l).Nodup) : List.foldl setAdd acc l = acc ++ l := by
  induction l generalizing acc with
  | nil => simp
  | cons a t ih =>
    have ha : a ∉ acc := by
      intro hmem
      have := List.disjoint_of_nodup_append h
      exact this hmem (by simp)
    simp only [List.foldl_cons, setAdd, ha, if_neg, if_false]
    have h2 : ((acc ++ [a]) ++ t).Nodup := by
      simpa [List.append_assoc] using h
    rw [ih (acc ++ [a]) h2, List.append_assoc]
    simp

theorem jsNewSet_eq_self {α : Type} [DecidableEq α] {l : List α} (h : l.Nodup) :
    jsNewSet l = l := by
  simpa [jsNewSet] using foldl_setAdd_eq_self l [] (by simpa)

theorem jsSetFilter_eq_jsNewSet_filter {α : Type} [DecidableEq α] (l : List α) (p : α → Bool) :
    jsSetFilter l p = jsNewSet (l.filter p) := by
  suffices h : ∀ (l acc : List α),
      List.foldl (fun acc a => if p a then setAdd acc a else acc) acc l =
        List.foldl setAdd acc (l.filter p) by
    simpa [jsSetFilter, jsNewSet] using h l []
  intro l
  induction l with
  | nil => simp
  | cons a t ih =>
    intro acc
    by_cases hp : p a <;> simp [hp, ih]

theorem mem_jsSetFilter {α : Type} [DecidableEq α] {l : List α} {p : α → Bool} {a : α} :
    a ∈ jsSetFilter l p ↔ a ∈ l ∧ p a := by
  simp [jsSetFilter_eq_jsNewSet_filter, mem_jsNewSet, List.mem_filter]

theorem nodup_jsSetFilter {α : Type} [DecidableEq α] (l : List α) (p : α → Bool) :
    (jsSetFilter l p).Nodup := by
  rw [jsSetFilter_eq_jsNewSet_filter]
  exact nodup_jsNewSet _

theorem jsSetFilter_sublist {α : Type} [DecidableEq α] (l : List α) (p : α → Bool) :
    (jsSetFilter l p).Sublist l := by
  rw [jsSetFilter_eq_jsNewSet_filter]
  exact (jsNewSet_sublist _).trans (List.filter_sublist l)

theorem jsSetFilter_eq_filter {α : Type} [DecidableEq α] {l : List α} (p : α → Bool)
    (h : l.Nodup) : jsSetFilter l p = l.filter p := by
  rw [jsSetFilter_eq_jsNewSet_filter]
  exact jsNewSet_eq_self (h.filter p)

mutual

theorem evaluateCondition_subset (c : QueryNode) (objList : List JValue)
    (options : SearchOptions) :
    ∀ x ∈ evaluateCondition objList c options, x ∈ objList := by
  cases c with
  | group neg conds op =>
    simp only [evaluateCondition]
    exact evaluateGroup_subset conds neg objList options
  | leaf neg d op =>
    intro x hx
    simp only [evaluateCondition] at hx
    exact (mem_jsSetFilter.mp hx).1
termination_by sizeOf c

theorem evaluateGroup_subset (conds : QueryList) (neg : Bool) (objList : List JValue)
    (options : SearchOptions) :
    ∀ x ∈ evaluateGroup objList neg conds options, x ∈ objList := by
  cases conds with
  | nil =>
    intro x hx
    simp only [evaluateGroup] at hx
    split at hx
    · simp at hx
    · exact hx
  | cons c rest =>
    intro x hx
    simp only [evaluateGroup] at hx
    split at hx
    · exact (mem_jsSetFilter.mp hx).1
    · exact evaluateChain_subset rest objList _ c.opOf options
        (evaluateCondition_subset c objList options) x hx
termination_by sizeOf conds

theorem evaluateChain_subset (conds : QueryList) (objList current : List JValue)
    (prevOp : Option Operator) (options : SearchOptions)
    (hcur : ∀ y ∈ current, y ∈ objList) :
    ∀ x ∈ evaluateChain objList current prevOp conds options, x ∈ objList := by
  cases conds with
  | nil =>
    intro x hx
    simp only [evaluateChain] at hx
    exact hcur x hx
  | cons c rest =>
    intro x hx
    simp only [evaluateChain] at hx
    refine evaluateChain_subset rest objList _ c.opOf options ?_ x hx
    intro y hy
    split at hy
    · rcases (mem_foldl_setAdd _ _ y).mp hy with h | h
      · exact hcur y h
      · exact evaluateCondition_subset c objList options y h
    · exact hcur y (evaluateCondition_subset c current options y hy)
termination_by sizeOf conds

end

mutual

theorem evaluateCondition_nodup (c : QueryNode) (objList : List JValue)
    (options : SearchOptions) :
    objList.Nodup → (evaluateCondition objList c options).Nodup := by
  cases c with
  | group neg conds op =>
    simp only [evaluateCondition]
    exact evaluateGroup_nodup conds neg objList options
  | leaf neg d op =>
    intro _
    simp only [evaluateCondition]
    exact nodup_jsSetFilter _ _
termination_by sizeOf c

theorem evaluateGroup_nodup (conds : QueryList) (neg : Bool) (objList : List JValue)
    (options : SearchOptions) :
    objList.Nodup → (evaluateGroup objList neg conds options).Nodup := by
  cases conds with
  | nil =>
    intro h
    simp only [evaluateGroup]
    split
    · exact List.nodup_nil
    · exact h
  | cons c rest =>
    intro h
    simp only [evaluateGroup]
    split
    · exact nodup_jsSetFilter _ _
    · exact evaluateChain_nodup rest objList _ c.opOf options h
        (evaluateCondition_nodup c objList options h)
termination_by sizeOf conds

theorem evaluateChain_nodup (conds : QueryList) (objList current : List JValue)
    (prevOp : Option Operator) (options : SearchOptions) (h : objList.Nodup)
    (hcur : current.Nodup) :
    (evaluateChain objList current prevOp conds options).Nodup := by
  cases conds with
  | nil => simpa only [evaluateChain]
  | cons c rest =>
    simp only [evaluateChain]
    refine evaluateChain_nodup rest objList _ c.opOf options h ?_
    split
    · exact nodup_foldl_setAdd _ hcur
    · exact evaluateCondition_nodup c current options hcur
termination_by sizeOf conds

end

mutual

theorem evaluateCondition_sublist (c : QueryNode) (objList : List JValue)
    (options : SearchOptions) :
    c.noOr = true → (evaluateCondition objList c options).Sublist objList := by
  cases c with
  | group neg conds op =>
    intro h
    simp only [QueryNode.noOr, Bool.and_eq_true] at h
    simp only [evaluateCondition]
    exact evaluateGroup_sublist conds neg objList options h.2
  | leaf neg d op =>
    intro _
    simp only [evaluateCondition]
    exact jsSetFilter_sublist _ _
termination_by sizeOf c

theorem evaluateGroup_sublist (conds : QueryList) (neg : Bool) (objList : List JValue)
    (options : SearchOptions) :
    conds.noOr = true → (evaluateGroup objList neg conds options).Sublist objList := by
  cases conds with
  | nil =>
    intro _
    simp only [evaluateGroup]
    split
    · exact List.nil_sublist objList
    · exact List.Sublist.refl objList
  | cons c rest =>
    intro h
    simp only [QueryList.noOr, Bool.and_eq_true] at h
    simp only [evaluateGroup]
    split
    · exact jsSetFilter_sublist _ _
    · have hop : c.opOf ≠ some .or := by
        cases c with
        | leaf n d op => simpa [QueryNode.noOr, QueryNode.opOf] using h.1
        | group n cs op =>
          simp only [QueryNode.noOr, Bool.and_eq_true, decide_eq_true_eq] at h
          simpa [QueryNode.opOf] using h.1.1
      exact (evaluateChain_sublist rest objList _ c.opOf options hop h.2).trans
        (evaluateCondition_sublist c objList options h.1)
termination_by sizeOf conds

theorem evaluateChain_sublist (conds : QueryList) (objList current : List JValue)
    (prevOp : Option Operator) (options : SearchOptions) (hop : prevOp ≠ some .or)
    (h : conds.noOr = true) :
    (evaluateChain objList current prevOp conds options).Sublist current := by
  cases conds with
  | nil =>
    simp only [evaluateChain]
    exact List.Sublist.refl current
  | cons c rest =>
    simp only [QueryList.noOr, Bool.and_eq_true] at h
    simp only [evaluateChain]
    have hop2 : c.opOf ≠ some .or := by
      cases c with
      | leaf n d op => simpa [QueryNode.noOr, QueryNode.opOf] using h.1
      | group n cs op =>
        simp only [QueryNode.noOr, Bool.and_eq_true, decide_eq_true_eq] at h
        simpa [QueryNode.opOf] using h.1.1
    rw [if_neg hop]
    exact (evaluateChain_sublist rest objList _ c.opOf options hop2 h.2).trans
      (evaluateCondition_sublist c current options h.1)
termination_by sizeOf conds

end

theorem nodup_subset_length_le {α : Type} [DecidableEq α] {l1 l2 : List α}
    (h1 : l1.Nodup) (h2 : l1 ⊆ l2) : l1.length ≤ l2.length :=
  (List.subperm_of_subset h1 h2).length_le

/-- C5: `search` never throws on null-ish inputs: a null/undefined record list
yields the empty list for every query, and a null/undefined/blank-after-trim
query yields an unfiltered shallow copy of the records (the same elements in
the same order), with the options object untouched in both cases. -/
theorem claim_C5_null_safety :
    (∀ (q : Option String) (opts : SearchOptions),
      SearchEngine.search none q opts = (some [], opts)) ∧
    (∀ (records : List JValue) (q : Option String) (opts : SearchOptions),
      jsStrTruthy q = false ∨ jsTrim (q.getD "") = "" →
      SearchEngine.search (some records) q opts = (some records, opts)) := by
  constructor
  · intro q opts
    simp [SearchEngine.search]
  · intro records q opts h
    have hc : (!jsStrTruthy q || (jsTrim (q.getD "") = "" : Bool)) = true := by
      rcases h with h | h <;> simp [h]
    simp [SearchEngine.search, hc]

theorem claim_C5_witness :
    SearchEngine.search none (some "name:john") {} = (some [], {}) ∧
    SearchEngine.search (some [jobj [("a", .vNum 1)]]) (some "   ") {} =
      (some [jobj [("a", .vNum 1)]], {}) :=
  ⟨claim_C5_null_safety.1 (some "name:john") {},
   claim_C5_null_safety.2 [jobj [("a", .vNum 1)]] (some "   ") {} (Or.inr (by decide))⟩

/-- C2 counterexample: the clause `name:""` does **not** produce a condition
whose value is the explicit empty string; `getUnquotedValue` maps the raw
matched text `""` to "no value", so the parsed condition is key-existence-only
(value absent). -/
theorem claim_C2_counterexample :
    extractConditionsFromQuery 20 ("name:\"\"").data .nil =
      some (.cons (.leaf false ⟨some "name", none, none⟩ none) .nil, []) ∧
    extractConditionsFromQuery 20 ("name:\"\"").data .nil ≠
      some (.cons (.leaf false ⟨some "name", none, some (.vstr "")⟩ none) .nil, []) := by
  constructor
  · decide
  · decide

/-- C2 amended: the tokenizer/parser treats the empty quoted literal `""` the
same as providing no value at all: `name:""` parses to exactly the same
key-existence-only condition (value absent) as the valueless clause
`name:`. -/
theorem claim_C2_amended :
    extractConditionsFromQuery 20 ("name:\"\"").data .nil =
      some (.cons (.leaf false ⟨some "name", none, none⟩ none) .nil, []) ∧
    extractConditionsFromQuery 20 ("name:").data .nil =
      some (.cons (.leaf false ⟨some "name", none, none⟩ none) .nil, []) := by
  constructor
  · decide
  · decide

/-- C3 counterexample: `SearchEngine.search` writes defaults **into the
caller's options object**: with `allowNumericString` left undefined, the field
is `true` (not undefined) after the call, so the options are not read-only. -/
theorem claim_C3_counterexample :
    (SearchEngine.search (some [jobj [("a", .vNum 1)]]) (some "a:1") {}).2.allowNumericString ≠
      ({} : SearchOptions).allowNumericString := by
  decide

/-- C3 amended: `excludeKeys` and `matchChildKeysAsValues` are never modified
by `search`, and `allowNumericString`/`allowKeyValueMatching` keep their
values whenever the caller defined them; but when left undefined, a call that
actually evaluates a query sets them to `true` in the caller's options
object. -/
theorem claim_C3_amended (objList : Option (List JValue)) (q : Option String)
    (opts : SearchOptions) :
    (SearchEngine.search objList q opts).2.excludeKeys = opts.excludeKeys ∧
    (SearchEngine.search objList q opts).2.matchChildKeysAsValues = opts.matchChildKeysAsValues ∧
    ((SearchEngine.search objList q opts).2.allowNumericString = opts.allowNumericString ∨
      (opts.allowNumericString = none ∧
        (SearchEngine.search objList q opts).2.allowNumericString = some true)) ∧
    ((SearchEngine.search objList q opts).2.allowKeyValueMatching = opts.allowKeyValueMatching ∨
      (opts.allowKeyValueMatching = none ∧
        (SearchEngine.search objList q opts).2.allowKeyValueMatching = some true)) ∧
    (opts.allowNumericString.isSome = true →
      (SearchEngine.search objList q opts).2.allowNumericString = opts.allowNumericString) ∧
    (opts.allowKeyValueMatching.isSome = true →
      (SearchEngine.search objList q opts).2.allowKeyValueMatching = opts.allowKeyValueMatching) := by
  unfold SearchEngine.search
  by_cases h1 : objList.isNone
  · simp [h1]
  · by_cases h2 : jsStrTruthy q = false ∨ jsTrim (q.getD "") = ""
    · simp [h1, h2]
    · have hopts2 : ∀ r : Option (List JValue) × SearchOptions,
        (r.2 = { opts with
          allowNumericString := some (opts.allowNumericString.getD true)
          allowKeyValueMatching := some (opts.allowKeyValueMatching.getD true) }) →
        (r.2.excludeKeys = opts.excludeKeys ∧
          r.2.matchChildKeysAsValues = opts.matchChildKeysAsValues ∧
          (r.2.allowNumericString = opts.allowNumericString ∨
            (opts.allowNumericString = none ∧ r.2.allowNumericString = some true)) ∧
          (r.2.allowKeyValueMatching = opts.allowKeyValueMatching ∨
            (opts.allowKeyValueMatching = none ∧ r.2.allowKeyValueMatching = some true)) ∧
          (opts.allowNumericString.isSome = true →
            r.2.allowNumericString = opts.allowNumericString) ∧
          (opts.allowKeyValueMatching.isSome = true →
            r.2.allowKeyValueMatching = opts.allowKeyValueMatching)) := by
        intro r hr
        rw [hr]
        refine ⟨rfl, rfl, ?_, ?_, ?_, ?_⟩
        · cases hn : opts.allowNumericString <;> simp [hn]
        · cases hk : opts.allowKeyValueMatching <;> simp [hk]
        · cases hn : opts.allowNumericString <;> simp [hn]
        · cases hk : opts.allowKeyValueMatching <;> simp [hk]
      have hc : ¬((!jsStrTruthy q || decide (jsTrim (q.getD "") = "")) = true) := by
        simpa using h2
      rw [if_neg h1, if_neg hc]
      dsimp only
      split
      · exact hopts2 _ rfl
      · exact hopts2 _ rfl

theorem claim_C3_amended_witness :
    (SearchEngine.search (some [jobj [("a", .vNum 1)]]) (some "a:1")
        { excludeKeys := some ["x"], allowNumericString := some false }).2.excludeKeys =
      some ["x"] ∧
    (SearchEngine.search (some [jobj [("a", .vNum 1)]]) (some "a:1")
        { excludeKeys := some ["x"], allowNumericString := some false }).2.allowNumericString =
      some false :=
  ⟨(claim_C3_amended (some [jobj [("a", .vNum 1)]]) (some "a:1")
      { excludeKeys := some ["x"], allowNumericString := some false }).1,
   (claim_C3_amended (some [jobj [("a", .vNum 1)]]) (some "a:1")
      { excludeKeys := some ["x"], allowNumericString := some false }).2.2.2.2.1 rfl⟩

/-- C9: `excludeKeys` entries act as dotted-path suffixes whose whole subtree
is suppressed: the phone number is found without exclusion, and the same
search with `excludeKeys = ["contact.phone"]` returns nothing. -/
theorem claim_C9_excludeKeys :
    (SearchEngine.search (some [jobj [("contact", jobj [("phone", .vStr "555-1234")])]])
        (some "\"555-1234\"") {}).1 =
      some [jobj [("contact", jobj [("phone", .vStr "555-1234")])]] ∧
    (SearchEngine.search (some [jobj [("contact", jobj [("phone", .vStr "555-1234")])]])
        (some "\"555-1234\"") { excludeKeys := some ["contact.phone"] }).1 = some [] := by
  constructor
  · decide
  · decide

/-- C6: range predicates are inclusive at both ends (a record value exactly
equal to `min` or to `max` matches `min-max`), and a zero bound is a present
bound: `field~:0-` normalizes to `min = 0` with no upper bound, matches
exactly the values `≥ 0` (zero included), and rejects every negative value;
two pipeline instances over `SearchEngine.search` close the loop. -/
theorem claim_C6_range_inclusive :
    (∀ mn mx : Rat, mn ≤ mx →
      matchRange (some mn) (some mx) mn = true ∧ matchRange (some mn) (some mx) mx = true) ∧
    (getQuery false (some '~') (some "age") (some "0-") =
      .leaf false ⟨some "age", some '~', some (.vrange (some 0) none)⟩ none) ∧
    (∀ v : Rat, matchRange (some 0) none v = decide (0 ≤ v)) ∧
    (SearchEngine.search
        (some [jobj [("age", .vNum 25)], jobj [("age", .vNum 31)], jobj [("age", .vNum 30)],
               jobj [("age", .vNum 28)], jobj [("age", .vNum 20)]])
        (some "age~:25-30") {}).1 =
      some [jobj [("age", .vNum 25)], jobj [("age", .vNum 30)], jobj [("age", .vNum 28)]] ∧
    (SearchEngine.search
        (some [jobj [("age", .vNum 0)], jobj [("age", .vNum (-5))], jobj [("age", .vNum 3)]])
        (some "age~:0-") {}).1 =
      some [jobj [("age", .vNum 0)], jobj [("age", .vNum 3)]] := by
  refine ⟨?_, by decide, fun v => rfl, by decide, by decide⟩
  intro mn mx h
  constructor
  · simp [matchRange, h]
  · simp [matchRange, h]

theorem claim_C6_witness :
    ((25 : Rat) ≤ 30) ∧
    matchRange (some 25) (some 30) 25 = true ∧ matchRange (some 25) (some 30) 30 = true :=
  ⟨by norm_num,
   (claim_C6_range_inclusive.1 25 30 (by norm_num)).1,
   (claim_C6_range_inclusive.1 25 30 (by norm_num)).2⟩

/-- C7: condition normalization is fail-soft.  For a `*`-typed clause whose
(escape-stripped) value fails regex compilation, and for a `~`-typed clause
whose value fails the range grammar or yields neither bound, `getQuery`
returns normally (never throws) and keeps the clause as a key-existence-only
condition — same negation and key, `type` and `value` dropped. -/
theorem claim_C7_failsoft :
    (∀ (negated : Bool) (key : Option String) (v : String),
      compileRegex (String.mk (removeEscapeChar v.data)) = none →
      getQuery negated (some '*') key (some v) =
        .leaf negated ⟨jsRemoveEscape key, none, none⟩ none) ∧
    (∀ (negated : Bool) (key : Option String) (v : String),
      rangeCaptures (String.mk (removeEscapeChar v.data)) = none →
      getQuery negated (some '~') key (some v) =
        .leaf negated ⟨jsRemoveEscape key, none, none⟩ none) ∧
    (∀ (negated : Bool) (key : Option String) (v : String) (c1 c2 : Option String),
      rangeCaptures (String.mk (removeEscapeChar v.data)) = some (c1, c2) →
      c1.bind parseFloatNum = none → c2.bind parseFloatNum = none →
      getQuery negated (some '~') key (some v) =
        .leaf negated ⟨jsRemoveEscape key, none, none⟩ none) := by
  refine ⟨?_, ?_, ?_⟩
  · intro negated key v h
    unfold getQuery
    by_cases hv : v = ""
    · subst hv
      simp [jsRemoveEscape, jsStrTruthy]
    · simp only [jsRemoveEscape, hv, if_false, if_neg hv]
      by_cases hb : jsTrim (String.mk (removeEscapeChar v.data)) = ""
      · simp [jsStrTruthy, hb]
      · by_cases ht : String.mk (removeEscapeChar v.data) = ""
        · simp [jsStrTruthy, ht]
        · simp [jsStrTruthy, ht, hb, h]
  · intro negated key v h
    unfold getQuery
    by_cases hv : v = ""
    · subst hv
      simp [jsRemoveEscape, jsStrTruthy]
    · simp only [jsRemoveEscape, hv, if_false, if_neg hv]
      by_cases hb : jsTrim (String.mk (removeEscapeChar v.data)) = ""
      · simp [jsStrTruthy, hb]
      · by_cases ht : String.mk (removeEscapeChar v.data) = ""
        · simp [jsStrTruthy, ht]
        · simp [jsStrTruthy, ht, hb, h]
  · intro negated key v c1 c2 h h1 h2
    unfold getQuery
    by_cases hv : v = ""
    · subst hv
      simp [jsRemoveEscape, jsStrTruthy]
    · simp only [jsRemoveEscape, hv, if_false, if_neg hv]
      by_cases hb : jsTrim (String.mk (removeEscapeChar v.data)) = ""
      · simp [jsStrTruthy, hb]
      · by_cases ht : String.mk (removeEscapeChar v.data) = ""
        · simp [jsStrTruthy, ht]
        · simp [jsStrTruthy, ht, hb, h, h1, h2]

theorem claim_C7_witness :
    compileRegex (String.mk (removeEscapeChar ("(").data)) = none ∧
    getQuery false (some '*') (some "name") (some "(") =
      .leaf false ⟨some "name", none, none⟩ none ∧
    rangeCaptures (String.mk (removeEscapeChar ("abc").data)) = none ∧
    getQuery false (some '~') (some "age") (some "abc") =
      .leaf false ⟨some "age", none, none⟩ none ∧
    rangeCaptures (String.mk (removeEscapeChar ("-").data)) = some (none, none) ∧
    getQuery false (some '~') (some "age") (some "-") =
      .leaf false ⟨some "age", none, none⟩ none :=
  ⟨by decide,
   claim_C7_failsoft.1 false (some "name") "(" (by decide),
   by decide,
   claim_C7_failsoft.2.1 false (some "age") "abc" (by decide),
   by decide,
   claim_C7_failsoft.2.2 false (some "age") "-" none none (by decide) rfl rfl⟩

/-- C10 counterexample: with a record list containing the same element twice
(in JS: an array holding the same object reference twice) and a blank query,
`search` returns the shallow copy `objList.slice()`, which preserves the
duplicate — the result is not duplicate-free. -/
theorem claim_C10_counterexample :
    (SearchEngine.search (some [jobj [("a", .vNum 1)], jobj [("a", .vNum 1)]])
        (some "") {}).1 =
      some [jobj [("a", .vNum 1)], jobj [("a", .vNum 1)]] ∧
    ¬ ([jobj [("a", .vNum 1)], jobj [("a", .vNum 1)]] : List JValue).Nodup := by
  constructor
  · decide
  · decide

/-- C10 amended: whenever `search` returns a list, each of its elements is an
element of the input record list; and whenever the query is not blank after
trimming (so the set evaluator actually runs), the result is additionally
duplicate-free.  (A blank query returns a shallow copy, which preserves any
duplicates of the input, as the counterexample shows.) -/
theorem claim_C10_amended (records : List JValue) (q : String) (opts : SearchOptions)
    (out : List JValue) (opts2 : SearchOptions)
    (h : SearchEngine.search (some (records : List JValue)) (some q) opts = (some out, opts2)) :
    (∀ x ∈ out, x ∈ records) ∧ (jsTrim q ≠ "" → out.Nodup) := by
  unfold SearchEngine.search at h
  rw [if_neg (by simp)] at h
  by_cases hq : (!jsStrTruthy (some q) || decide (jsTrim ((some q).getD "") = "")) = true
  · rw [if_pos hq] at h
    have hout : out = records := by
      have := congrArg Prod.fst h
      simpa using this.symm
    subst hout
    refine ⟨fun x hx => hx, fun hne => ?_⟩
    exfalso
    rcases Bool.or_eq_true_iff.mp hq with hf | ht
    · have hq0 : q = "" := by
        by_contra hq0
        simp [jsStrTruthy, hq0] at hf
      exact hne (by rw [hq0]; decide)
    · exact hne (by simpa using ht)
  · rw [if_neg hq] at h
    dsimp only at h
    rcases hE : extractConditionsFromQuery
        (2 * (jsToLower ((some q).getD "")).data.length + 2)
        (jsToLower ((some q).getD "")).data .nil with _ | parsed
    · rw [hE] at h
      simp at h
    · rw [hE] at h
      have hout : out = evaluateGroup (jsNewSet records) false parsed.1
          { opts with
            allowNumericString := some (opts.allowNumericString.getD true)
            allowKeyValueMatching := some (opts.allowKeyValueMatching.getD true) } := by
        have := congrArg Prod.fst h
        simpa using this.symm
      subst hout
      constructor
      · intro x hx
        exact mem_jsNewSet.mp (evaluateGroup_subset parsed.1 false (jsNewSet records) _ x hx)
      · intro _
        exact evaluateGroup_nodup parsed.1 false (jsNewSet records) _ (nodup_jsNewSet records)

theorem claim_C10_amended_witness :
    (∀ x ∈ ([jobj [("a", .vNum 1)]] : List JValue),
      x ∈ ([jobj [("a", .vNum 1)], jobj [("b", .vNum 2)]] : List JValue)) ∧
    (jsTrim "a:1" ≠ "" → ([jobj [("a", .vNum 1)]] : List JValue).Nodup) :=
  claim_C10_amended [jobj [("a", .vNum 1)], jobj [("b", .vNum 2)]] "a:1" {}
    [jobj [("a", .vNum 1)]]
    { allowNumericString := some true, allowKeyValueMatching := some true }
    (by decide)

/-- C1 counterexample: with records `[{a:1}, {b:2}]` and the query
`b:2 or a:1`, the record matched only by the later `or` alternative is
appended after the earlier matches, so the result `[{b:2}, {a:1}]` is not a
sublist of the input — survivors are reordered. -/
theorem claim_C1_counterexample :
    (SearchEngine.search (some [jobj [("a", .vNum 1)], jobj [("b", .vNum 2)]])
        (some "b:2 or a:1") {}).1 =
      some [jobj [("b", .vNum 2)], jobj [("a", .vNum 1)]] ∧
    ¬ ([jobj [("b", .vNum 2)], jobj [("a", .vNum 1)]] : List JValue).Sublist
        [jobj [("a", .vNum 1)], jobj [("b", .vNum 2)]] := by
  constructor
  · decide
  · decide

/-- C1 amended: the result of `search` is the input with non-matching records
dropped, in original relative order, **provided the parsed query joins
conditions with `and` only** (no `or` operator anywhere in the parsed tree);
a query using `or` may reorder survivors, because records matched only by a
later `or` alternative are appended after the already-accumulated matches. -/
theorem claim_C1_amended (records : List JValue) (q : String) (opts : SearchOptions)
    (out : List JValue) (opts2 : SearchOptions)
    (h : SearchEngine.search (some (records : List JValue)) (some q) opts = (some out, opts2))
    (conds : QueryList) (restCs : List Char)
    (hp : extractConditionsFromQuery (2 * (jsToLower ((some q).getD "")).data.length + 2)
      (jsToLower ((some q).getD "")).data .nil = some (conds, restCs))
    (hnoor : conds.noOr = true) :
    out.Sublist records := by
  unfold SearchEngine.search at h
  rw [if_neg (by simp)] at h
  by_cases hq : (!jsStrTruthy (some q) || decide (jsTrim ((some q).getD "") = "")) = true
  · rw [if_pos hq] at h
    have hout : out = records := by
      have := congrArg Prod.fst h
      simpa using this.symm
    rw [hout]
  · rw [if_neg hq] at h
    dsimp only at h
    rw [hp] at h
    have hout : out = evaluateGroup (jsNewSet records) false conds
        { opts with
          allowNumericString := some (opts.allowNumericString.getD true)
          allowKeyValueMatching := some (opts.allowKeyValueMatching.getD true) } := by
      have := congrArg Prod.fst h
      simpa using this.symm
    subst hout
    exact (evaluateGroup_sublist conds false (jsNewSet records) _ hnoor).trans
      (jsNewSet_sublist records)

theorem claim_C1_amended_witness :
    ([jobj [("a", .vNum 1)]] : List JValue).Sublist
      [jobj [("a", .vNum 1)], jobj [("b", .vNum 2)]] :=
  claim_C1_amended [jobj [("a", .vNum 1)], jobj [("b", .vNum 2)]] "a:1" {}
    [jobj [("a", .vNum 1)]]
    { allowNumericString := some true, allowKeyValueMatching := some true }
    (by decide)
    (.cons (.leaf false ⟨some "a", none, some (.vstr "1")⟩ none) .nil) []
    (by decide) (by decide)

/-- C4: De Morgan equivalence.  For every record list and every pair of
condition clauses `A`, `B` (arbitrary key/type/value), evaluating the parsed
shape of `not(A and B)` — a negated group whose complement is taken within
the incoming candidate set — yields exactly the same set of records (same
membership) as the parsed shape of `(not A) or (not B)`.  The two concrete
parses pin down those shapes for `A = a:1`, `B = b:2`. -/
theorem claim_C4_deMorgan :
    (∀ (records : List JValue) (opts : SearchOptions)
        (kA : Option String) (tA : Option Char) (vA : Option QVal)
        (kB : Option String) (tB : Option Char) (vB : Option QVal) (x : JValue),
      x ∈ evaluateGroup (jsNewSet records) false
          (.cons (.group true
            (.cons (.leaf false ⟨kA, tA, vA⟩ (some .and))
              (.cons (.leaf false ⟨kB, tB, vB⟩ none) .nil)) none) .nil) opts ↔
      x ∈ evaluateGroup (jsNewSet records) false
          (.cons (.group false (.cons (.leaf true ⟨kA, tA, vA⟩ none) .nil) (some .or))
            (.cons (.group false (.cons (.leaf true ⟨kB, tB, vB⟩ none) .nil) none) .nil)) opts) ∧
    extractConditionsFromQuery 40 ("not(a:1 and b:2)").data .nil =
      some (.cons (.group true
        (.cons (.leaf false ⟨some "a", none, some (.vstr "1")⟩ (some .and))
          (.cons (.leaf false ⟨some "b", none, some (.vstr "2")⟩ none) .nil)) none) .nil, []) ∧
    extractConditionsFromQuery 60 ("(not a:1) or (not b:2)").data .nil =
      some (.cons (.group false
            (.cons (.leaf true ⟨some "a", none, some (.vstr "1")⟩ none) .nil) (some .or))
        (.cons (.group false
            (.cons (.leaf true ⟨some "b", none, some (.vstr "2")⟩ none) .nil) none) .nil), []) := by
  refine ⟨?_, by decide, by decide⟩
  intro records opts kA tA vA kB tB vB x
  simp only [evaluateGroup, evaluateChain, evaluateCondition, QueryNode.opOf]
  simp only [mem_jsSetFilter, mem_foldl_setAdd]
  cases hA : findQuery x ⟨kA, tA, vA⟩ "" opts none <;>
    cases hB : findQuery x ⟨kB, tB, vB⟩ "" opts none <;>
      simp [hA, hB, mem_jsSetFilter, mem_foldl_setAdd]

/-- C8: AND narrows and OR widens.  For every record list and every pair of
conditions `A`, `B` (arbitrary negation/key/type/value), the evaluation of
the parsed shape of `A and B` has at most `min |A| |B|` results and the
evaluation of the parsed shape of `A or B` has at least `max |A| |B|`
results, where `|A|`, `|B|` are the result counts of the single-condition
queries; two concrete searches illustrate the shapes end-to-end. -/
theorem claim_C8_and_or :
    (∀ (records : List JValue) (opts : SearchOptions)
        (nA : Bool) (kA : Option String) (tA : Option Char) (vA : Option QVal)
        (nB : Bool) (kB : Option String) (tB : Option Char) (vB : Option QVal),
      (evaluateGroup (jsNewSet records) false
          (.cons (.leaf nA ⟨kA, tA, vA⟩ (some .and))
            (.cons (.leaf nB ⟨kB, tB, vB⟩ none) .nil)) opts).length ≤
        min (evaluateGroup (jsNewSet records) false
              (.cons (.leaf nA ⟨kA, tA, vA⟩ none) .nil) opts).length
            (evaluateGroup (jsNewSet records) false
              (.cons (.leaf nB ⟨kB, tB, vB⟩ none) .nil) opts).length ∧
      max (evaluateGroup (jsNewSet records) false
            (.cons (.leaf nA ⟨kA, tA, vA⟩ none) .nil) opts).length
          (evaluateGroup (jsNewSet records) false
            (.cons (.leaf nB ⟨kB, tB, vB⟩ none) .nil) opts).length ≤
        (evaluateGroup (jsNewSet records) false
          (.cons (.leaf nA ⟨kA, tA, vA⟩ (some .or))
            (.cons (.leaf nB ⟨kB, tB, vB⟩ none) .nil)) opts).length) ∧
    (SearchEngine.search
        (some [jobj [("a", .vNum 1), ("b", .vNum 2)], jobj [("a", .vNum 1)], jobj [("b", .vNum 2)]])
        (some "a:1 and b:2") {}).1 = some [jobj [("a", .vNum 1), ("b", .vNum 2)]] ∧
    (SearchEngine.search
        (some [jobj [("a", .vNum 1), ("b", .vNum 2)], jobj [("a", .vNum 1)], jobj [("b", .vNum 2)]])
        (some "a:1 or b:2") {}).1 =
      some [jobj [("a", .vNum 1), ("b", .vNum 2)], jobj [("a", .vNum 1)], jobj [("b", .vNum 2)]] := by
  refine ⟨?_, by decide, by decide⟩
  intro records opts nA kA tA vA nB kB tB vB
  simp only [evaluateGroup, evaluateChain, evaluateCondition, QueryNode.opOf]
  simp only [show ((some Operator.and = some Operator.or) = False) by simp,
    show ((some Operator.or = some Operator.or) = True) by simp,
    if_true, if_false, reduceIte]
  set D := jsNewSet records with hD
  have hDnodup : D.Nodup := nodup_jsNewSet records
  set pA : JValue → Bool := fun obj => nA != findQuery obj ⟨kA, tA, vA⟩ "" opts none with hpA
  set pB : JValue → Bool := fun obj => nB != findQuery obj ⟨kB, tB, vB⟩ "" opts none with hpB
  constructor
  · refine Nat.le_min.mpr ⟨?_, ?_⟩
    · exact (jsSetFilter_sublist (jsSetFilter D pA) pB).length_le
    · have e2 : jsSetFilter D pA = D.filter pA := jsSetFilter_eq_filter pA hDnodup
      have e1 : jsSetFilter (jsSetFilter D pA) pB = (D.filter pA).filter pB := by
        rw [e2]
        exact jsSetFilter_eq_filter pB (hDnodup.filter pA)
      have e3 : jsSetFilter D pB = D.filter pB := jsSetFilter_eq_filter pB hDnodup
      simp only [e1, e3]
      exact ((List.filter_sublist D).filter pB).length_le
  · refine Nat.max_le.mpr ⟨?_, ?_⟩
    · exact length_le_foldl_setAdd _ _
    · refine nodup_subset_length_le (nodup_jsSetFilter D pB) ?_
      intro y hy
      exact (mem_foldl_setAdd _ _ y).mpr (Or.inr hy)
